import Mathlib

/-!
Verification of the parquet arrow writer core
(cpp/src/parquet/arrow/writer.cc and the DecimalSize declaration of
cpp/src/parquet/arrow/schema.h).

The definitions below are a shallow embedding of the C++ source: each
definition names the function or code block it transliterates.  Machine
integers are modelled as Nat/Int (with an explicit wrap where 64-bit
overflow matters), status returns as an explicit Status inductive, and
variadic status messages as lists of string fragments in the order the
source concatenates them.
-/

namespace ParquetWriter

/-- Status results produced by the writer core (arrow::Status).  A message is
kept as the list of fragments passed to the Status constructor, in order. -/
inductive Status where
  | ok
  | invalid (msg : List String)
  | notImplemented (msg : List String)
deriving DecidableEq, Repr

/-! ## Column-chunk orchestrator: ArrowColumnWriter::Write(ChunkedArray, offset, size)

Only the chunk lengths matter for the chunk-advancing logic and the offset
bounds check, so a chunked array is modelled by its list of chunk lengths.
The function below embeds writer.cc lines 324-347: the `length == 0` early
return, the chunk-skipping while loop and the past-end check.  A successful
dispatch returns the chunk index / chunk offset the write loop would start
from. -/

/-- ChunkedArray::length(): the sum of the chunk lengths. -/
def chunkedLen (chunks : List Nat) : Nat := chunks.sum

/-- Outcome of the pre-write phase of ArrowColumnWriter::Write(ChunkedArray&,
offset, size): early OK for an empty chunked array, Invalid for an offset
past the end, otherwise the (chunk_index, chunk_offset) the write loop
starts at. -/
inductive ChunkedStart where
  | earlyOk
  | fail (s : Status)
  | writeFrom (chunkIndex : Nat) (chunkOffset : Int)
deriving DecidableEq, Repr

/-- The chunk-skipping while loop of Write(ChunkedArray&): walk the chunks
while `absolute_position < offset`; on entering the chunk containing
`offset`, stop with the relative chunk offset.  Returns
(chunk_index, chunk_offset, absolute_position) at loop exit. -/
def advanceChunks : List Nat → Int → Int → Nat → Nat × Int × Int
  | [], _, absPos, idx => (idx, 0, absPos)
  | l :: rest, offset, absPos, idx =>
      if absPos < offset then
        if absPos + (l : Int) > offset then (idx, offset - absPos, absPos)
        else advanceChunks rest offset (absPos + (l : Int)) (idx + 1)
      else (idx, 0, absPos)

/-- ArrowColumnWriter::Write(const ChunkedArray&, int64_t offset, int64_t size)
up to the start of the per-chunk write loop (writer.cc lines 324-347). -/
def writeChunkedStart (chunks : List Nat) (offset : Int) (size : Int) : ChunkedStart :=
  if chunkedLen chunks = 0 then .earlyOk
  else
    let t := advanceChunks chunks offset 0 0
    if t.2.2 ≥ (chunkedLen chunks : Int) then
      .fail (.invalid ["Cannot write data at offset past end of chunked array"])
    else .writeFrom t.1 t.2.1

/-! ## Row-group driver: FileWriter::Impl::Close (writer.cc lines 1029-1039)

The close logic touches: the `closed_` flag, whether a row-group writer is
active (`row_group_writer_ != nullptr`), and the statuses the two underlying
Close calls would produce (exceptions are caught by PARQUET_CATCH_NOT_OK and
converted to error statuses, modelled here as stored Status values). -/

structure WriterImplState where
  closed : Bool
  rgOpen : Bool
  rgCloseStatus : Status
  fileCloseStatus : Status
deriving DecidableEq, Repr

/-- Closing work performed against the underlying writers. -/
inductive CloseAction where
  | closeRowGroup
  | closeFile
deriving DecidableEq, Repr

/-- FileWriter::Impl::Close(): if not closed, set the closed flag, close the
active row-group writer (if any) and then the file writer, propagating the
first failure; otherwise do nothing and return OK.  The returned list
records the underlying Close calls attempted. -/
def implClose (s : WriterImplState) : Status × WriterImplState × List CloseAction :=
  if s.closed then (.ok, s, [])
  else
    let s1 := { s with closed := true }
    if s.rgOpen then
      if s.rgCloseStatus = .ok then (s.fileCloseStatus, s1, [.closeRowGroup, .closeFile])
      else (s.rgCloseStatus, s1, [.closeRowGroup])
    else (s.fileCloseStatus, s1, [.closeFile])

/-! ## Timestamp policy and coercion engine
(ArrowColumnWriter::WriteTimestamps, writer.cc lines 647-687;
kTimestampCoercionFactors, lines 693-713;
ArrowColumnWriter::WriteTimestampsCoerce, lines 715-755) -/

inductive TimeUnit where
  | second
  | milli
  | micro
  | nano
deriving DecidableEq, Repr

inductive ParquetVersion where
  | v1_0
  | v2_0
deriving DecidableEq, Repr

/-- The ArrowWriterProperties fields the timestamp path consults. -/
structure ArrowWriterProps where
  supportInt96 : Bool
  coerceEnabled : Bool
  coerceUnit : TimeUnit
  truncAllowed : Bool
deriving DecidableEq, Repr

/-- How a timestamp column is written: as Int96, as int64 without data
conversion, or coerced to a target unit under a truncation policy. -/
inductive TimestampAction where
  | int96
  | int64Direct
  | coerceTo (target : TimeUnit) (truncationAllowed : Bool)
deriving DecidableEq, Repr

/-- ArrowColumnWriter::WriteTimestamps (writer.cc lines 647-687): the
if/else chain choosing between Int96, direct int64, and coercion.  The
version-1.0 branch builds properties with coerce_timestamps(MICRO) and
disallow_truncated_timestamps; the seconds branch builds properties with
coerce_timestamps(MILLI) and the default truncated_timestamps_allowed =
false. -/
def writeTimestampsSelect (props : ArrowWriterProps) (version : ParquetVersion)
    (srcUnit : TimeUnit) : TimestampAction :=
  if props.supportInt96 then .int96
  else if props.coerceEnabled then
    if srcUnit = props.coerceUnit then .int64Direct
    else .coerceTo props.coerceUnit props.truncAllowed
  else if version = .v1_0 ∧ srcUnit = .nano then .coerceTo .micro false
  else if srcUnit = .second then .coerceTo .milli false
  else .int64Direct

/-- The claim's policy, written as its ordered first-match rule list, to be
compared with the source-derived writeTimestampsSelect. -/
def specTimestampPolicy (props : ArrowWriterProps) (version : ParquetVersion)
    (srcUnit : TimeUnit) : TimestampAction :=
  if props.supportInt96 then .int96
  else if props.coerceEnabled ∧ srcUnit = props.coerceUnit then .int64Direct
  else if props.coerceEnabled then .coerceTo props.coerceUnit props.truncAllowed
  else if version = .v1_0 ∧ srcUnit = .nano then .coerceTo .micro false
  else if srcUnit = .second then .coerceTo .milli false
  else .int64Direct

/-- Direction tag of a coercion table entry (COERCE_DIVIDE / COERCE_INVALID /
COERCE_MULTIPLY). -/
inductive CoerceOp where
  | divide
  | invalidOp
  | multiply
deriving DecidableEq, Repr

/-- kTimestampCoercionFactors (writer.cc lines 693-713), indexed
(source unit, target unit). -/
def coercionFactor : TimeUnit → TimeUnit → CoerceOp × Int
  | .second, .second => (.invalidOp, 0)
  | .second, .milli => (.multiply, 1000)
  | .second, .micro => (.multiply, 1000000)
  | .second, .nano => (.multiply, 1000000000)
  | .milli, .second => (.invalidOp, 0)
  | .milli, .milli => (.multiply, 1)
  | .milli, .micro => (.multiply, 1000)
  | .milli, .nano => (.multiply, 1000000)
  | .micro, .second => (.invalidOp, 0)
  | .micro, .milli => (.divide, 1000)
  | .micro, .micro => (.multiply, 1)
  | .micro, .nano => (.multiply, 1000)
  | .nano, .second => (.invalidOp, 0)
  | .nano, .milli => (.divide, 1000000)
  | .nano, .micro => (.divide, 1000)
  | .nano, .nano => (.multiply, 1)

/-- TimestampType::ToString() for a timezone-less arrow timestamp type. -/
def timestampName : TimeUnit → String
  | .second => "timestamp[s]"
  | .milli => "timestamp[ms]"
  | .micro => "timestamp[us]"
  | .nano => "timestamp[ns]"

/-- Two's-complement wraparound of signed 64-bit arithmetic. -/
def int64Wrap (x : Int) : Int := Int.emod (x + 2 ^ 63) (2 ^ 64) - 2 ^ 63

/-- The DivideBy lambda of WriteTimestampsCoerce: walk the values in order
(each value paired with its validity bit); fail with Invalid at the first
non-null value that is not evenly divisible by the factor when truncation is
disallowed; otherwise fill the buffer with the C-style (toward zero)
quotients.  C++ int64 division and remainder truncate toward zero, hence
Int.tdiv / Int.tmod. -/
def divideBy (truncationAllowed : Bool) (srcName dstName : String) (factor : Int) :
    List (Int × Bool) → Except (List String) (List Int)
  | [] => .ok []
  | (v, isValid) :: rest =>
      if ¬truncationAllowed ∧ isValid ∧ Int.tmod v factor ≠ 0 then
        .error ["Casting from ", srcName, " to ", dstName, " would lose data: ",
                toString v]
      else
        match divideBy truncationAllowed srcName dstName factor rest with
        | .error e => .error e
        | .ok bs => .ok (Int.tdiv v factor :: bs)

/-- The MultiplyBy lambda of WriteTimestampsCoerce: every slot (null or not)
is multiplied by the factor in int64 arithmetic; no overflow check. -/
def multiplyBy (factor : Int) (vals : List (Int × Bool)) : List Int :=
  vals.map (fun p => int64Wrap (p.1 * factor))

/-- The value-conversion phase of ArrowColumnWriter::WriteTimestampsCoerce
(writer.cc lines 715-755): pick the table entry for (source unit, target
unit) and run DivideBy when the operation is COERCE_DIVIDE, MultiplyBy
otherwise. -/
def writeTimestampsCoerceValues (srcUnit dstUnit : TimeUnit)
    (truncationAllowed : Bool) (vals : List (Int × Bool)) :
    Except (List String) (List Int) :=
  let c := coercionFactor srcUnit dstUnit
  if c.1 = .divide then
    divideBy truncationAllowed (timestampName srcUnit) (timestampName dstUnit) c.2 vals
  else .ok (multiplyBy c.2 vals)

/-! ## Per-type materializer: dense vs spaced dispatch
(generic ArrowColumnWriter::TypedWriteBatch, writer.cc lines 433-460; the
boolean specialization, lines 781-806) -/

/-- A leaf primitive array as the materializer sees it: logical length,
offset into the backing buffers, the validity bitmap buffer (absolute bit
positions; the bit for logical index i sits at offset + i), the cached
null count, and the backing values buffer (absolute positions). -/
structure LeafArray (α : Type) where
  len : Nat
  off : Nat
  validity : Option (List Bool)
  nullCount : Nat
  values : List α
deriving DecidableEq, Repr

/-- The call made to the underlying typed column writer: WriteBatch (dense)
or WriteBatchSpaced (with the validity bits and their offset). -/
inductive WriteCall (α : Type) where
  | dense (values : List α)
  | spaced (values : List α) (validBits : Option (List Bool)) (validBitsOffset : Nat)
deriving DecidableEq, Repr

def WriteCall.isDense {α : Type} : WriteCall α → Bool
  | .dense _ => true
  | .spaced _ _ _ => false

/-- The logical window of a leaf array: values[offset .. offset+len). -/
def window {α : Type} [Inhabited α] (a : LeafArray α) : List α :=
  (List.range a.len).map (fun i => a.values.getD (a.off + i) default)

/-- Array::IsNull(i): bit (offset + i) of the validity bitmap is clear; an
array without a bitmap has no nulls. -/
def leafIsNull {α : Type} (a : LeafArray α) (i : Nat) : Bool :=
  match a.validity with
  | some bm => !(bm.getD (a.off + i) false)
  | none => false

/-- The generic ArrowColumnWriter::TypedWriteBatch (writer.cc lines
433-460): dense WriteNonNullableBatch when the destination schema node is
required or the array has no nulls, otherwise WriteNullableBatch passing
the validity bitmap and the array offset (spaced). -/
def genericTypedWriteBatch {α : Type} [Inhabited α] (required : Bool)
    (a : LeafArray α) : WriteCall α :=
  if required || a.nullCount == 0 then .dense (window a)
  else .spaced (window a) a.validity a.off

/-- The boolean specialization
TypedWriteBatch<BooleanType, arrow::BooleanType> (writer.cc lines 781-806):
bit-unpack the present values into a byte buffer, skipping nulls, and
always call the dense WriteBatch. -/
def booleanTypedWriteBatch (required : Bool) (a : LeafArray Bool) : WriteCall Bool :=
  .dense ((List.range a.len).foldl
    (fun buf i => if !leafIsNull a i then buf ++ [a.values.getD (a.off + i) false] else buf)
    [])

/-- The present values of a boolean leaf array in order. -/
def packedBools (a : LeafArray Bool) : List Bool :=
  (List.range a.len).filterMap
    (fun i => if leafIsNull a i then none else some (a.values.getD (a.off + i) false))

/-! ## Arrow data model for the level builder

Only the structure the level builder inspects is modelled.  The code reads
struct types solely through num_children() and child(0), so a struct type is
represented by its child count (zero children, exactly one child with its
type and nullability, or 2 + extra children whose types are never
inspected). -/

inductive DataType where
  | prim (name : String)
  | list (item : DataType) (itemNullable : Bool)
  | strukt0
  | strukt1 (child : DataType) (childNullable : Bool)
  | struktN (extra : Nat)
deriving DecidableEq, Repr

/-- DataType::ToString(); struct children are abbreviated since no claim
depends on their rendering. -/
def DataType.show : DataType → String
  | .prim n => n
  | .list t _ => "list<" ++ t.show ++ ">"
  | .strukt0 => "struct<>"
  | .strukt1 _ _ => "struct<...>"
  | .struktN _ => "struct<...>"

/-- An arrow Field as the level builder reads it: its type and nullable flag
(the field name is never inspected by this code). -/
structure Field where
  type : DataType
  nullable : Bool
deriving DecidableEq, Repr

/-- An arrow array: a flat (primitive) array over a backing buffer, a list
array whose value_offset(i) sequence is stored already adjusted by the array
offset (as raw_value_offsets() returns it), or a struct array (only its
length and type are read before the NotImplemented visit fires).  Validity
bitmaps are absolute: the bit for logical index i sits at offset + i. -/
inductive ArrowArray where
  | flat (ty : String) (len off : Nat) (validity : Option (List Bool))
         (nullCount : Nat) (values : List Int)
  | list (len off : Nat) (validity : Option (List Bool)) (nullCount : Nat)
         (offs : List Nat) (values : ArrowArray)
  | strukt (len : Nat) (ty : DataType)
deriving DecidableEq, Repr

def ArrowArray.lengthA : ArrowArray → Nat
  | .flat _ len _ _ _ _ => len
  | .list len _ _ _ _ _ => len
  | .strukt len _ => len

def ArrowArray.offsetA : ArrowArray → Nat
  | .flat _ _ off _ _ _ => off
  | .list _ off _ _ _ _ => off
  | .strukt _ _ => 0

def ArrowArray.nullCountA : ArrowArray → Nat
  | .flat _ _ _ _ nc _ => nc
  | .list _ _ _ nc _ _ => nc
  | .strukt _ _ => 0

def ArrowArray.bitmapA : ArrowArray → Option (List Bool)
  | .flat _ _ _ validity _ _ => validity
  | .list _ _ validity _ _ _ => validity
  | .strukt _ _ => none

/-- Array::type() as far as GetLeafType inspects it. -/
def ArrowArray.dtype : ArrowArray → DataType
  | .flat ty _ _ _ _ _ => .prim ty
  | .list _ _ _ _ _ v => .list v.dtype true
  | .strukt _ ty => ty

/-- BitUtil::GetBit on a possibly-absent bitmap buffer. -/
def getBit : Option (List Bool) → Nat → Bool
  | some bm, i => bm.getD i false
  | none, _ => false

/-- GetLeafType (writer.cc lines 304-314): descend LIST and STRUCT nodes,
requiring exactly one child, and return the leaf type; otherwise fail with
Invalid("Nested column branch had multiple children: <type>"). -/
def getLeafType : DataType → Except Status String
  | .prim n => .ok n
  | .list t _ => getLeafType t
  | .strukt1 t _ => getLeafType t
  | .strukt0 =>
      .error (.invalid ["Nested column branch had multiple children: ",
                        DataType.show .strukt0])
  | .struktN extra =>
      .error (.invalid ["Nested column branch had multiple children: ",
                        DataType.show (.struktN extra)])

/-- Whether the child-0 descent path of a type (the path GetLeafType and the
nullability walk both follow) reaches a struct with more than one child. -/
def pathHasMultiChild : DataType → Bool
  | .prim _ => false
  | .list t _ => pathHasMultiChild t
  | .strukt0 => false
  | .strukt1 t _ => pathHasMultiChild t
  | .struktN _ => true

/-- The nullability walk of LevelBuilder::GenerateLevels (writer.cc lines
136-146): push the field's nullable flag, then while the current type has
children, fail with NotImplemented if it has more than one, else descend
into child 0 pushing its nullable flag. -/
def collectNullableAux : DataType → List Bool → Except Status (List Bool)
  | .prim _, acc => .ok acc
  | .list t nb, acc => collectNullableAux t (acc ++ [nb])
  | .strukt0, acc => .ok acc
  | .strukt1 t nb, acc => collectNullableAux t (acc ++ [nb])
  | .struktN _, _ =>
      .error (.notImplemented ["Fields with more than one child are not supported."])

/-- Per-layer data the visit pass collects: array offset, validity bitmap
and null count (array_offsets_, valid_bitmaps_, null_counts_). -/
structure LayerInfo where
  arrOff : Nat
  bitmap : Option (List Bool)
  nullCount : Nat

/-- Result of the downward visit: the list layers (each with its offsets
buffer), the leaf layer, the running (min_offset_idx_, max_offset_idx_) and
the leaf values array. -/
structure DescentResult where
  listLayers : List (LayerInfo × List Nat)
  leafLayer : LayerInfo
  minIdx : Nat
  maxIdx : Nat
  valuesArr : ArrowArray

/-- LevelBuilder::VisitInline / Visit (writer.cc lines 85-119): flat arrays
record their layer data and become the values array; list arrays record
their layer data and offsets, map min/max through value_offset, and recurse
into the values; struct (and the other unsupported) arrays fail with
NotImplemented. -/
def visitDescend : ArrowArray → Nat → Nat → Except Status DescentResult
  | .flat ty len off validity nc vals, mn, mx =>
      .ok ⟨[], ⟨off, validity, nc⟩, mn, mx, .flat ty len off validity nc vals⟩
  | .list _ off validity nc offs vals, mn, mx =>
      match visitDescend vals (offs.getD mn 0) (offs.getD mx 0) with
      | .error s => .error s
      | .ok r =>
          .ok ⟨(⟨off, validity, nc⟩, offs) :: r.listLayers, r.leafLayer,
               r.minIdx, r.maxIdx, r.valuesArr⟩
  | .strukt _ _, _, _ =>
      .error (.notImplemented ["Level generation for Struct not supported yet"])

/-- The LevelBuilder member vectors as HandleList / HandleNonNullList /
HandleListEntries index them by rep level (list layers first, leaf layer
last; offs holds the list layers only). -/
structure LB where
  nullCounts : List Nat
  validBitmaps : List (Option (List Bool))
  offs : List (List Nat)
  arrayOffsets : List Nat
  nullable : List Bool

/-- Tag for the three mutually recursive level emitters; each branch of
runLevels transliterates the corresponding member function. -/
inductive LevelCall where
  | entries (d r offset len : Nat)
  | listCall (d r index : Nat)
  | nonNull (d r index : Nat)

/-- The level emission recursion on (def_levels_, rep_levels_), fuelled (the
fuel only bounds the recursion depth; generateLevels passes enough for the
bounded nesting depth).
.entries is HandleListEntries (writer.cc lines 249-258): for each i below
length, append the rep level between siblings (i > 0) and handle the list at
offset + i.
.listCall is HandleList (lines 192-203): a nullable present entry descends
with def_level + 1, a nullable null entry appends def_level, a non-nullable
layer descends unchanged.
.nonNull is HandleNonNullList (lines 205-247): empty inner list appends
def_level; a deeper list layer recurses into entries with def_level + 1 and
rep_level + 1; at the leaf, append inner_length - 1 rep levels at
rep_level + 1, then all-null leaves without a bitmap append def_level + 1
for each slot, and otherwise each slot appends def_level + 2 when the leaf
layer is nullable and the bit is set (or the leaf has no nulls), else
def_level + 1. -/
def runLevels (lb : LB) : Nat → LevelCall → List Nat × List Nat → List Nat × List Nat
  | 0, _, st => st
  | fuel + 1, c, st =>
      match c with
      | .entries d r offset len =>
          (List.range len).foldl
            (fun st i =>
              let st := if 0 < i then (st.1, st.2 ++ [r]) else st
              runLevels lb fuel (.listCall d r (offset + i)) st)
            st
      | .listCall d r index =>
          if lb.nullable.getD r false then
            if lb.nullCounts.getD r 0 = 0 ∨
                getBit (lb.validBitmaps.getD r none) (index + lb.arrayOffsets.getD r 0) then
              runLevels lb fuel (.nonNull (d + 1) r index) st
            else (st.1 ++ [d], st.2)
          else runLevels lb fuel (.nonNull d r index) st
      | .nonNull d r index =>
          let os := lb.offs.getD r []
          let innerOffset := os.getD index 0
          let innerLength := os.getD (index + 1) 0 - innerOffset
          if innerLength = 0 then (st.1 ++ [d], st.2)
          else if r + 1 < lb.offs.length then
            runLevels lb fuel (.entries (d + 1) (r + 1) innerOffset innerLength) st
          else
            let nullableLevel := lb.nullable.getD (r + 1) false
            let lnc := lb.nullCounts.getD (r + 1) 0
            let bm := lb.validBitmaps.getD (r + 1) none
            let st := if 1 ≤ innerLength then
                (st.1, st.2 ++ List.replicate (innerLength - 1) (r + 1)) else st
            if lnc ≠ 0 ∧ bm = none then
              (st.1 ++ List.replicate innerLength (d + 1), st.2)
            else
              (st.1 ++ (List.range innerLength).map (fun i =>
                if nullableLevel ∧ (lnc = 0 ∨
                    getBit bm (innerOffset + i + lb.arrayOffsets.getD (r + 1) 0))
                then d + 2 else d + 1), st.2)

/-- The primitive nullable branch of GenerateLevels (writer.cc lines
152-170): all ones when null_count is 0, all zeros when null_count equals
the length, otherwise one def level per position read from the validity
bitmap starting at the array offset. -/
def primDefLevels (a : ArrowArray) : List Nat :=
  if a.nullCountA = 0 then List.replicate a.lengthA 1
  else if a.nullCountA = a.lengthA then List.replicate a.lengthA 0
  else (List.range a.lengthA).map
    (fun i => if getBit a.bitmapA (a.offsetA + i) then 1 else 0)

/-- The outputs of LevelBuilder::GenerateLevels. -/
structure GenResult where
  valuesOffset : Nat
  numValues : Nat
  numLevels : Nat
  defLevels : Option (List Nat)
  repLevels : Option (List Nat)
  valuesArr : ArrowArray

/-- LevelBuilder::GenerateLevels (writer.cc lines 121-190): visit the array
downward (min/max offset indices start at (0, length)), walk the field path
for nullability, then either the primitive branch (single path entry: rep
levels null; def levels only for a nullable leaf) or the nested branch
(seed rep level 0, run HandleListEntries over the whole array, num_levels =
rep buffer length). -/
def generateLevels (a : ArrowArray) (f : Field) : Except Status GenResult :=
  match visitDescend a 0 a.lengthA with
  | .error s => .error s
  | .ok dr =>
      match collectNullableAux f.type [f.nullable] with
      | .error s => .error s
      | .ok nullable =>
          if nullable.length = 1 then
            .ok { valuesOffset := dr.minIdx, numValues := dr.maxIdx - dr.minIdx,
                  numLevels := a.lengthA,
                  defLevels := if nullable.getD 0 false then some (primDefLevels a)
                               else none,
                  repLevels := none, valuesArr := dr.valuesArr }
          else
            let lb : LB :=
              { nullCounts := dr.listLayers.map (fun l => l.1.nullCount)
                  ++ [dr.leafLayer.nullCount],
                validBitmaps := dr.listLayers.map (fun l => l.1.bitmap)
                  ++ [dr.leafLayer.bitmap],
                offs := dr.listLayers.map (fun l => l.2),
                arrayOffsets := dr.listLayers.map (fun l => l.1.arrOff)
                  ++ [dr.leafLayer.arrOff],
                nullable := nullable }
            let st := runLevels lb (3 * (lb.offs.length + 2))
              (.entries 0 0 0 a.lengthA) ([], [0])
            .ok { valuesOffset := dr.minIdx, numValues := dr.maxIdx - dr.minIdx,
                  numLevels := st.2.length,
                  defLevels := some st.1, repLevels := some st.2,
                  valuesArr := dr.valuesArr }

/-- The logical values of the slice Slice(valuesOffset, numValues) of a flat
leaf array. -/
def ArrowArray.logicalSlice (a : ArrowArray) (o n : Nat) : List Int :=
  match a with
  | .flat _ _ off _ _ vals => (List.range n).map (fun i => vals.getD (off + o + i) 0)
  | _ => []

/-- Projection of GenerateLevels onto (def levels, rep levels, num_levels);
none when level generation fails. -/
def genLevelsView (a : ArrowArray) (f : Field) :
    Option (Option (List Nat) × Option (List Nat) × Nat) :=
  match generateLevels a f with
  | .error _ => none
  | .ok r => some (r.defLevels, r.repLevels, r.numLevels)

/-- Projection of GenerateLevels onto (values_offset, num_values, the leaf
value slice they delimit); none when level generation fails. -/
def genValuesView (a : ArrowArray) (f : Field) : Option (Nat × Nat × List Int) :=
  match generateLevels a f with
  | .error _ => none
  | .ok r => some (r.valuesOffset, r.numValues, r.valuesArr.logicalSlice r.valuesOffset r.numValues)

/-- Outcome of ArrowColumnWriter::Write(const Array&) (writer.cc lines
932-1004) up to level generation: empty arrays return OK immediately,
GetLeafType runs on the array's type, then GenerateLevels; a successful run
proceeds to the per-type dispatch with the leaf type name. -/
inductive WriteDispatch where
  | emptyOk
  | fail (s : Status)
  | proceed (leafTy : String) (r : GenResult)

def writeArray (a : ArrowArray) (f : Field) : WriteDispatch :=
  if a.lengthA = 0 then .emptyOk
  else
    match getLeafType a.dtype with
    | .error s => .fail s
    | .ok leafTy =>
        match generateLevels a f with
        | .error s => .fail s
        | .ok r => .proceed leafTy r

/-- The error status of a column write, if it failed. -/
def writeArrayStatus (a : ArrowArray) (f : Field) : Option Status :=
  match writeArray a f with
  | .fail s => some s
  | _ => none

/-- Well-formedness of the stored null count of a flat array: with a bitmap
it counts the clear bits of the logical window; without one it is 0 (no
nulls) or the length (a NullArray). -/
def flatWF (len off : Nat) (validity : Option (List Bool)) (nc : Nat) : Bool :=
  match validity with
  | none => nc == 0 || nc == len
  | some bm => nc == (List.range len).countP (fun i => !bm.getD (off + i) false)

/-- Array::IsValid(i) for a flat array: the validity bit when a bitmap is
present, otherwise valid iff the array has no nulls (a bitmap-less array is
all valid except the all-null NullArray case). -/
def flatIsValid (off : Nat) (validity : Option (List Bool)) (nc : Nat) (i : Nat) : Bool :=
  match validity with
  | some bm => bm.getD (off + i) false
  | none => nc == 0

/-! ## Decimal big-endian encoding
(TypedWriteBatch<FLBAType, arrow::Decimal128Type>, writer.cc lines 883-930;
DecimalSize declared in parquet/arrow/schema.h lines 102-103) -/

/-- The k bytes of v in big-endian order (v taken mod 256^k). -/
def beBytes : Nat → Nat → List Nat
  | 0, _ => []
  | k + 1, v => beBytes k (v / 256) ++ [v % 256]

/-- Read a big-endian byte list back as a natural number. -/
def beValue (bs : List Nat) : Nat := bs.foldl (fun acc b => acc * 256 + b) 0

/-- Interpret a k-byte big-endian byte list as a signed two's-complement
integer. -/
def twosComplement (k : Nat) (bs : List Nat) : Int :=
  if beValue bs < 2 ^ (8 * k - 1) then (beValue bs : Int)
  else (beValue bs : Int) - 2 ^ (8 * k)

/-- Modelled from the spec: DecimalSize(precision) is declared in
parquet/arrow/schema.h but defined outside the given sources; per the spec
it returns the minimum number of bytes needed to represent any signed
integer with the given number of decimal digits in two's complement, i.e.
the least k with 10^precision <= 2^(8k - 1). -/
def DecimalSize (precision : Nat) : Nat :=
  (((List.range 16).map (fun j => j + 1)).find?
      (fun k => 10 ^ precision ≤ 2 ^ (8 * k - 1))).getD 16

/-- The 16-byte buffer the decimal materializer builds for one value
(writer.cc lines 909-914 / 919-923): the two little-endian 64-bit limbs of
the 128-bit two's-complement representation, each ToBigEndian-swapped, high
limb first. -/
def decimalLimbBytes (d : Int) : List Nat :=
  beBytes 8 ((Int.emod d ((2 : Int) ^ 128)).toNat / 2 ^ 64) ++
    beBytes 8 ((Int.emod d ((2 : Int) ^ 128)).toNat % 2 ^ 64)

/-- The fixed-length byte sequence emitted for one decimal value: the FLBA
pointer is advanced by byte_width (16) - DecimalSize(precision) and the
descriptor's fixed length is DecimalSize(precision), so the last
DecimalSize(precision) bytes of the big-endian buffer are written. -/
def decimalEmitBytes (precision : Nat) (d : Int) : List Nat :=
  (decimalLimbBytes d).drop (16 - DecimalSize precision)

end ParquetWriter

namespace ParquetWriter

/-! ## Theorems -/

/-- Helper for the past-end argument: when `offset` is at or beyond the sum of
all remaining chunk lengths, the chunk-skipping loop consumes every chunk and
exits with `absolute_position` equal to that sum. -/
theorem advanceChunks_all (ls : List Nat) (offset absPos : Int) (idx : Nat)
    (h : absPos + (ls.sum : Int) ≤ offset) :
    (advanceChunks ls offset absPos idx).2.2 = absPos + (ls.sum : Int) := by
  induction ls generalizing absPos idx with
  | nil => simp [advanceChunks]
  | cons l rest ih =>
      have hsum : ((l :: rest).sum : Int) = (l : Int) + (rest.sum : Int) := by
        simp [List.sum_cons]
      rw [hsum] at h
      by_cases hlt : absPos < offset
      · have hnb : ¬(absPos + (l : Int) > offset) := by
          have hx : (0 : Int) ≤ (rest.sum : Int) := Int.ofNat_nonneg _
          omega
        rw [advanceChunks, if_pos hlt, if_neg hnb, ih _ _ (by omega)]
        rw [hsum]; ring
      · have hz : (l : Int) + (rest.sum : Int) = 0 := by
          have hl : (0 : Int) ≤ (l : Int) := Int.ofNat_nonneg _
          have hr : (0 : Int) ≤ (rest.sum : Int) := Int.ofNat_nonneg _
          omega
        rw [advanceChunks, if_neg hlt, hsum]
        show absPos = absPos + ((l : Int) + (rest.sum : Int))
        omega

/-- C7 (counterexample): the claim quantifies over every chunked array, but
for an empty chunked array (`length == 0`) the write returns OK immediately
even though the offset 1 is at or past the end (length 0), instead of
failing with Invalid. -/
theorem c7_past_end_counterexample :
    writeChunkedStart [] 1 1 = .earlyOk ∧
    chunkedLen [] = 0 ∧
    writeChunkedStart [] 1 1 ≠
      .fail (.invalid ["Cannot write data at offset past end of chunked array"]) := by
  decide

/-- C7 (amended): for every chunked array C with C.length > 0 and every
(offset, size), if the offset lies at or past the end of C
(offset >= C.length) then Write(ChunkedArray&, offset, size) fails with
Invalid("Cannot write data at offset past end of chunked array"). -/
theorem c7_past_end_invalid (chunks : List Nat) (offset size : Int)
    (hlen : 0 < chunkedLen chunks) (hoff : (chunkedLen chunks : Int) ≤ offset) :
    writeChunkedStart chunks offset size =
      .fail (.invalid ["Cannot write data at offset past end of chunked array"]) := by
  have hadv := advanceChunks_all chunks offset 0 0 (by simpa [chunkedLen] using hoff)
  rw [writeChunkedStart, if_neg (by omega)]
  have : (advanceChunks chunks offset 0 0).2.2 ≥ (chunkedLen chunks : Int) := by
    rw [hadv]; simp [chunkedLen]
  rw [if_pos this]

/-- C7 witness: a concrete chunked array [2, 3] with offset 5 = length
triggers the Invalid status. -/
theorem c7_past_end_invalid_witness :
    0 < chunkedLen [2, 3] ∧ (chunkedLen [2, 3] : Int) ≤ 5 ∧
    writeChunkedStart [2, 3] 5 1 =
      .fail (.invalid ["Cannot write data at offset past end of chunked array"]) :=
  ⟨by decide, by decide, c7_past_end_invalid [2, 3] 5 1 (by decide) (by decide)⟩

/-- C10: for every chunked array with length 0, Write(ChunkedArray&, offset,
size) returns success immediately for every offset and size, including
offsets greater than 0; the offset bounds check is never reached. -/
theorem c10_empty_chunked_ok (chunks : List Nat) (offset size : Int)
    (h : chunkedLen chunks = 0) :
    writeChunkedStart chunks offset size = .earlyOk := by
  rw [writeChunkedStart, if_pos h]

/-- C10 witness: the empty chunked array with offset 3 (past the end of the
empty array) and size 5 returns success. -/
theorem c10_empty_chunked_ok_witness :
    chunkedLen [] = 0 ∧ writeChunkedStart [] 3 5 = .earlyOk :=
  ⟨by decide, c10_empty_chunked_ok [] 3 5 (by decide)⟩

/-- C9: FileWriter::Close is idempotent.  After any call the closed flag is
set; a call on a closed writer performs no closing work and returns OK (so a
second call succeeds even if the first returned an error); the first call on
an open writer closes the active row-group writer (if any) and then the file
writer, propagating the first underlying failure. -/
theorem c9_close_idempotent (s : WriterImplState) :
    ((implClose s).2.1.closed = true) ∧
    (s.closed = true → implClose s = (.ok, s, [])) ∧
    (implClose (implClose s).2.1 = (.ok, (implClose s).2.1, [])) ∧
    (s.closed = false → s.rgOpen = true → s.rgCloseStatus = .ok →
      (implClose s).2.2 = [.closeRowGroup, .closeFile] ∧
      (implClose s).1 = s.fileCloseStatus) ∧
    (s.closed = false → s.rgOpen = false →
      (implClose s).2.2 = [.closeFile] ∧ (implClose s).1 = s.fileCloseStatus) ∧
    (s.closed = false → s.rgOpen = true → s.rgCloseStatus ≠ .ok →
      (implClose s).2.2 = [.closeRowGroup] ∧ (implClose s).1 = s.rgCloseStatus) := by
  obtain ⟨c, rg, rs, fs⟩ := s
  cases c <;> cases rg <;> by_cases hrs : rs = Status.ok <;>
    simp [implClose, hrs]

/-- C9 witness: a writer with an open row group whose underlying row-group
Close fails; the first Close returns that error, the second returns OK with
no further closing work. -/
theorem c9_close_idempotent_witness :
    ((implClose ⟨false, true, .invalid ["boom"], .ok⟩).2.1.closed = true) ∧
    (implClose (implClose ⟨false, true, .invalid ["boom"], .ok⟩).2.1 =
      (.ok, (implClose ⟨false, true, .invalid ["boom"], .ok⟩).2.1, [])) ∧
    ((implClose ⟨false, true, .invalid ["boom"], .ok⟩).2.2 = [.closeRowGroup] ∧
      (implClose ⟨false, true, .invalid ["boom"], .ok⟩).1 = .invalid ["boom"]) := by
  have h := c9_close_idempotent ⟨false, true, .invalid ["boom"], .ok⟩
  exact ⟨h.1, h.2.2.1, h.2.2.2.2.2 rfl rfl (by decide)⟩

/-- C3: timestamp policy selection is first-match in the order: (1) Int96 if
support_deprecated_int96_timestamps; (2) else if coercion is enabled, int64
unchanged when the source unit equals the coerce-to unit, otherwise coerce
to that unit; (3) else if format version is 1.0 and the source unit is
nanoseconds, coerce to microseconds with truncation disallowed; (4) else if
the source unit is seconds, coerce to milliseconds with default properties;
(5) else int64 unchanged.  The source selection agrees with this rule list
on every input. -/
theorem c3_timestamp_policy_matches_spec (i96 ce : Bool) (cu : TimeUnit)
    (ta : Bool) (ver : ParquetVersion) (su : TimeUnit) :
    writeTimestampsSelect ⟨i96, ce, cu, ta⟩ ver su =
      specTimestampPolicy ⟨i96, ce, cu, ta⟩ ver su := by
  cases i96 <;> cases ce <;> cases cu <;> cases ta <;> cases ver <;> cases su <;> rfl

/-- Success case of DivideBy: when truncation is allowed, or every non-null
value is evenly divisible, the buffer is filled with the truncated-toward-
zero quotients. -/
theorem divideBy_ok (ta : Bool) (s d : String) (f : Int) (vals : List (Int × Bool))
    (h : ta = true ∨ ∀ p ∈ vals, p.2 = true → Int.tmod p.1 f = 0) :
    divideBy ta s d f vals = .ok (vals.map (fun p => Int.tdiv p.1 f)) := by
  induction vals with
  | nil => rfl
  | cons p rest ih =>
      obtain ⟨v, b⟩ := p
      have hcond : ¬(¬ta = true ∧ b = true ∧ Int.tmod v f ≠ 0) := by
        rcases h with h | h
        · simp [h]
        · intro hc
          exact hc.2.2 (h (v, b) (List.mem_cons_self _ _) hc.2.1)
      have hrest : divideBy ta s d f rest = .ok (rest.map (fun p => Int.tdiv p.1 f)) := by
        apply ih
        rcases h with h | h
        · exact Or.inl h
        · exact Or.inr fun p hp => h p (List.mem_cons_of_mem _ hp)
      rw [divideBy, if_neg hcond, hrest]
      rfl

/-- Failure case of DivideBy: with truncation disallowed, the first non-null
value not evenly divisible by the factor aborts the conversion with the
Invalid message naming the source type, the target type and the value. -/
theorem divideBy_error (s d : String) (f : Int) (pre : List (Int × Bool)) (v : Int)
    (post : List (Int × Bool))
    (hpre : ∀ p ∈ pre, p.2 = true → Int.tmod p.1 f = 0)
    (hv : Int.tmod v f ≠ 0) :
    divideBy false s d f (pre ++ (v, true) :: post) =
      .error ["Casting from ", s, " to ", d, " would lose data: ", toString v] := by
  induction pre with
  | nil =>
      rw [List.nil_append, divideBy, if_pos ⟨by decide, rfl, hv⟩]
  | cons p rest ih =>
      obtain ⟨w, b⟩ := p
      have hw : ¬(¬false = true ∧ b = true ∧ Int.tmod w f ≠ 0) := by
        intro hc
        exact hc.2.2 (hpre (w, b) (List.mem_cons_self _ _) hc.2.1)
      rw [List.cons_append, divideBy, if_neg hw,
          ih fun p hp => hpre p (List.mem_cons_of_mem _ hp)]

/-- C4: the coercion table divides exactly for micros-to-millis,
nanos-to-millis and nanos-to-micros.  In a divide case each coerced value is
the source value divided by the factor truncating toward zero, and when
truncation is disallowed the first non-null value not evenly divisible by
the factor fails the write with Invalid("Casting from <src> to <dst> would
lose data: <value>").  In every multiply case each value is multiplied by
the factor in wrapping int64 arithmetic with no overflow check and the
conversion always succeeds. -/
theorem c4_timestamp_coercion (src dst : TimeUnit) (ta : Bool)
    (vals : List (Int × Bool)) :
    (((coercionFactor src dst).1 = .divide) ↔
      (src, dst) ∈ [(TimeUnit.micro, TimeUnit.milli), (TimeUnit.nano, TimeUnit.milli),
                    (TimeUnit.nano, TimeUnit.micro)]) ∧
    ((coercionFactor src dst).1 = .divide →
      ((ta = true ∨ ∀ p ∈ vals, p.2 = true → Int.tmod p.1 (coercionFactor src dst).2 = 0) →
        writeTimestampsCoerceValues src dst ta vals =
          .ok (vals.map (fun p => Int.tdiv p.1 (coercionFactor src dst).2))) ∧
      (∀ pre (v : Int) post, vals = pre ++ (v, true) :: post →
        (∀ p ∈ pre, p.2 = true → Int.tmod p.1 (coercionFactor src dst).2 = 0) →
        ta = false → Int.tmod v (coercionFactor src dst).2 ≠ 0 →
        writeTimestampsCoerceValues src dst ta vals =
          .error ["Casting from ", timestampName src, " to ", timestampName dst,
                  " would lose data: ", toString v])) ∧
    ((coercionFactor src dst).1 = .multiply →
      writeTimestampsCoerceValues src dst ta vals =
        .ok (vals.map (fun p => int64Wrap (p.1 * (coercionFactor src dst).2)))) := by
  refine ⟨?_, fun hop => ⟨?_, ?_⟩, fun hop => ?_⟩
  · cases src <;> cases dst <;> decide
  · intro h
    rw [writeTimestampsCoerceValues]
    simp only [hop, if_pos]
    exact divideBy_ok ta _ _ _ vals h
  · intro pre v post hsplit hpre hta hv
    subst hsplit
    subst hta
    rw [writeTimestampsCoerceValues]
    simp only [hop, if_pos]
    exact divideBy_error _ _ _ pre v post hpre hv
  · have hnd : (coercionFactor src dst).1 ≠ .divide := by rw [hop]; decide
    rw [writeTimestampsCoerceValues]
    simp only [if_neg hnd]
    rfl

/-- C4 witness: nanos-to-micros with 1500000500 (not divisible by 1000) and
truncation disallowed fails with the Invalid message carrying the value;
seconds-to-millis multiplies 7 into 7000. -/
theorem c4_timestamp_coercion_witness :
    writeTimestampsCoerceValues .nano .micro false [(1500000500, true)] =
      .error ["Casting from ", "timestamp[ns]", " to ", "timestamp[us]",
              " would lose data: ", toString (1500000500 : Int)] ∧
    writeTimestampsCoerceValues .second .milli false [(7, true)] = .ok [7000] :=
  ⟨((c4_timestamp_coercion .nano .micro false [(1500000500, true)]).2.1
      (by decide)).2 [] 1500000500 [] rfl (by simp) rfl (by decide),
   ((c4_timestamp_coercion .second .milli false [(7, true)]).2.2
      (by decide)).trans (congrArg Except.ok (by decide))⟩

/-- Accumulating a value for each element passing a test is the same as
filtering-and-mapping after the initial buffer. -/
theorem foldl_append_filterMap {α β : Type} (p : α → Bool) (g : α → β)
    (l : List α) (buf : List β) :
    l.foldl (fun b x => if p x then b ++ [g x] else b) buf =
      buf ++ l.filterMap (fun x => if p x then some (g x) else none) := by
  induction l generalizing buf with
  | nil => simp
  | cons x xs ih =>
      rw [List.foldl_cons, List.filterMap_cons]
      cases h : p x <;> simp [h, ih]

/-- The boolean materializer always issues a dense WriteBatch whose value
buffer holds exactly the present values in order. -/
theorem boolean_batch_packed (required : Bool) (a : LeafArray Bool) :
    booleanTypedWriteBatch required a = .dense (packedBools a) := by
  rw [booleanTypedWriteBatch, packedBools]
  congr 1
  rw [foldl_append_filterMap (fun i => !leafIsNull a i)
        (fun i => a.values.getD (a.off + i) false) (List.range a.len) [],
      List.nil_append]
  congr 1
  funext i
  cases h : leafIsNull a i <;> simp [h]

/-- C5 (counterexample): the dense/spaced selection does not govern boolean
leaf arrays.  For the boolean array [true, null] under an optional (not
required) schema node with null_count 1, the claim calls for a spaced
write, but the boolean materializer issues a dense WriteBatch. -/
theorem c5_bool_selection_counterexample :
    booleanTypedWriteBatch false ⟨2, 0, some [true, false], 1, [true, true]⟩ =
      .dense [true] ∧
    (booleanTypedWriteBatch false ⟨2, 0, some [true, false], 1, [true, true]⟩).isDense
      = true ∧
    ¬(false = true ∨
      (LeafArray.mk 2 0 (some [true, false]) 1 [true, true]).nullCount = 0) := by
  decide

/-- C5 (amended): the generic materializer template writes dense exactly
when the destination schema node is required or null_count is 0, and spaced
otherwise, passing the validity bitmap and its offset; the boolean
specialization instead always writes dense, skipping nulls so that only the
present values are copied into the value buffer. -/
theorem c5_materializer_modes (required : Bool) (a : LeafArray Int) :
    ((genericTypedWriteBatch required a).isDense = true ↔
      (required = true ∨ a.nullCount = 0)) ∧
    (required = false → a.nullCount ≠ 0 →
      genericTypedWriteBatch required a = .spaced (window a) a.validity a.off) ∧
    (∀ (rq : Bool) (b : LeafArray Bool),
      booleanTypedWriteBatch rq b = .dense (packedBools b)) := by
  refine ⟨?_, ?_, fun rq b => boolean_batch_packed rq b⟩
  · by_cases hr : required = true <;> by_cases hn : a.nullCount = 0 <;>
      simp [genericTypedWriteBatch, WriteCall.isDense, hr, hn]
  · intro hr hn
    simp [genericTypedWriteBatch, hr, hn]

/-- C5 witness: an optional int32 leaf [5, null] goes spaced with its bitmap
and offset, while the optional boolean leaf [true, null] goes dense with
only the present value. -/
theorem c5_materializer_modes_witness :
    genericTypedWriteBatch false (⟨2, 0, some [true, false], 1, [5, 6]⟩ : LeafArray Int) =
      .spaced [5, 6] (some [true, false]) 0 ∧
    booleanTypedWriteBatch true ⟨2, 0, some [true, false], 1, [true, true]⟩ =
      .dense [true] :=
  ⟨((c5_materializer_modes false ⟨2, 0, some [true, false], 1, [5, 6]⟩).2.1
      rfl (by decide)).trans (by decide),
   ((c5_materializer_modes false ⟨2, 0, some [true, false], 1, [5, 6]⟩).2.2
      true ⟨2, 0, some [true, false], 1, [true, true]⟩).trans (by decide)⟩

/-- C2: the list<int32> array [[1,2], null, [], [3]] with nullable outer
list and non-nullable items produces rep levels [0,1,0,0,0], def levels
[2,2,0,1,2], num_levels 5, and values_offset 0 with num_values 3
delimiting the leaf slice [1,2,3]. -/
theorem c2_list_levels_example :
    genLevelsView
        (.list 4 0 (some [true, false, true, true]) 1 [0, 2, 2, 2, 3]
          (.flat "int32" 3 0 none 0 [1, 2, 3]))
        ⟨.list (.prim "int32") false, true⟩ =
      some (some [2, 2, 0, 1, 2], some [0, 1, 0, 0, 0], 5) ∧
    genValuesView
        (.list 4 0 (some [true, false, true, true]) 1 [0, 2, 2, 2, 3]
          (.flat "int32" 3 0 none 0 [1, 2, 3]))
        ⟨.list (.prim "int32") false, true⟩ =
      some (0, 3, [1, 2, 3]) := by
  decide

/-- C8 (counterexample): for a two-child struct column (array and field both
typed struct with two children, length 1), the column write fails with
Invalid("Nested column branch had multiple children: ...") raised by
GetLeafType, not with the claimed NotImplemented("Fields with more than one
child are not supported."). -/
theorem c8_multichild_counterexample :
    writeArrayStatus (.strukt 1 (.struktN 0)) ⟨.struktN 0, true⟩ =
      some (.invalid ["Nested column branch had multiple children: ",
                      DataType.show (.struktN 0)]) ∧
    writeArrayStatus (.strukt 1 (.struktN 0)) ⟨.struktN 0, true⟩ ≠
      some (.notImplemented ["Fields with more than one child are not supported."]) := by
  decide

/-- GetLeafType fails with the multiple-children Invalid whenever the
child-0 descent path of the type reaches a struct with more than one
child. -/
theorem getLeafType_multichild (t : DataType) (h : pathHasMultiChild t = true) :
    getLeafType t =
      .error (.invalid ["Nested column branch had multiple children: ",
                        "struct<...>"]) := by
  induction t with
  | prim n => exact absurd h (by simp [pathHasMultiChild])
  | list t nb ih => exact ih (by simpa [pathHasMultiChild] using h)
  | strukt0 => exact absurd h (by simp [pathHasMultiChild])
  | strukt1 t nb ih => exact ih (by simpa [pathHasMultiChild] using h)
  | struktN extra => rfl

/-- The nullability walk fails with the multi-child NotImplemented exactly
when the field-type path reaches a struct with more than one child. -/
theorem collectNullable_error_iff (t : DataType) (acc : List Bool) :
    collectNullableAux t acc =
        .error (.notImplemented ["Fields with more than one child are not supported."]) ↔
      pathHasMultiChild t = true := by
  induction t generalizing acc with
  | prim n => simp [collectNullableAux, pathHasMultiChild]
  | list t nb ih => simpa [collectNullableAux, pathHasMultiChild] using ih (acc ++ [nb])
  | strukt0 => simp [collectNullableAux, pathHasMultiChild]
  | strukt1 t nb ih => simpa [collectNullableAux, pathHasMultiChild] using ih (acc ++ [nb])
  | struktN extra => simp [collectNullableAux, pathHasMultiChild]

/-- The only error the downward visit can produce is the level-generation
NotImplemented (raised for struct and the other unsupported arrays). -/
theorem visitDescend_error_msg (a : ArrowArray) : ∀ (mn mx : Nat) (s : Status),
    visitDescend a mn mx = .error s →
    s = .notImplemented ["Level generation for Struct not supported yet"] := by
  induction a with
  | flat ty len off validity nc vals =>
      intro mn mx s h
      exact absurd h (by simp [visitDescend])
  | list len off validity nc offs vals ih =>
      intro mn mx s h
      rw [visitDescend] at h
      cases hv : visitDescend vals (offs.getD mn 0) (offs.getD mx 0) with
      | error s0 =>
          rw [hv] at h
          dsimp only at h
          injection h with hs
          rw [← hs]
          exact ih _ _ _ hv
      | ok r =>
          rw [hv] at h
          dsimp only at h
          exact absurd h (by simp)
  | strukt len ty =>
      intro mn mx s h
      rw [visitDescend] at h
      injection h with hs
      exact hs.symm

/-- C8 (amended): a non-empty column whose array type path contains a
struct with more than one child fails with Invalid("Nested column branch
had multiple children: ...") from GetLeafType before level generation; and
GenerateLevels returns NotImplemented("Fields with more than one child are
not supported.") exactly when the field's type path holds a multi-child
struct and the array itself visits cleanly. -/
theorem c8_multichild_errors :
    (∀ (a : ArrowArray) (f : Field), a.lengthA ≠ 0 →
      pathHasMultiChild a.dtype = true →
      writeArrayStatus a f =
        some (.invalid ["Nested column branch had multiple children: ",
                        "struct<...>"])) ∧
    (∀ (a : ArrowArray) (f : Field),
      generateLevels a f =
          .error (.notImplemented ["Fields with more than one child are not supported."]) ↔
        (pathHasMultiChild f.type = true ∧
          ∃ dr, visitDescend a 0 a.lengthA = .ok dr)) := by
  constructor
  · intro a f hlen hpath
    rw [writeArrayStatus, writeArray, if_neg hlen, getLeafType_multichild a.dtype hpath]
  · intro a f
    constructor
    · intro h
      cases hv : visitDescend a 0 a.lengthA with
      | error s =>
          exfalso
          rw [generateLevels, hv] at h
          dsimp only at h
          injection h with hs
          have hmsg := visitDescend_error_msg a 0 a.lengthA s hv
          rw [hmsg] at hs
          exact absurd hs (by decide)
      | ok dr =>
          refine ⟨?_, dr, rfl⟩
          rw [generateLevels, hv] at h
          dsimp only at h
          cases hc : collectNullableAux f.type [f.nullable] with
          | error s =>
              rw [hc] at h
              dsimp only at h
              injection h with hs
              rw [hs] at hc
              exact (collectNullable_error_iff f.type [f.nullable]).mp hc
          | ok nb =>
              rw [hc] at h
              dsimp only at h
              split at h <;> simp at h
    · rintro ⟨hpath, dr, hv⟩
      rw [generateLevels, hv,
          (collectNullable_error_iff f.type [f.nullable]).mpr hpath]

/-- C8 witness: a non-empty list array over a two-child struct fails with
the Invalid status, and a flat int32 array paired with a two-child struct
field makes GenerateLevels return the multi-child NotImplemented. -/
theorem c8_multichild_errors_witness :
    writeArrayStatus (.list 1 0 none 0 [0, 1] (.strukt 1 (.struktN 0)))
        ⟨.prim "int32", true⟩ =
      some (.invalid ["Nested column branch had multiple children: ",
                      "struct<...>"]) ∧
    generateLevels (.flat "int32" 1 0 none 0 [7]) ⟨.struktN 0, true⟩ =
      .error (.notImplemented ["Fields with more than one child are not supported."]) :=
  ⟨c8_multichild_errors.1 (.list 1 0 none 0 [0, 1] (.strukt 1 (.struktN 0)))
      ⟨.prim "int32", true⟩ (by decide) (by decide),
   (c8_multichild_errors.2 (.flat "int32" 1 0 none 0 [7]) ⟨.struktN 0, true⟩).mpr
      ⟨by decide, _, rfl⟩⟩

/-- getD of a replicated list below its length. -/
theorem getD_replicate {α : Type} (n : Nat) (x d : α) (i : Nat) (h : i < n) :
    (List.replicate n x).getD i d = x := by
  induction n generalizing i with
  | zero => omega
  | succ n ih =>
      cases i with
      | zero => rfl
      | succ j => exact ih j (by omega)

/-- getD of a function mapped over a range, below the range length. -/
theorem getD_map_range {α : Type} (f : Nat → α) (n i : Nat) (d : α) (h : i < n) :
    ((List.range n).map f).getD i d = f i := by
  rw [List.getD_eq_getElem?_getD, List.getElem?_map, List.getElem?_range h]
  rfl

/-- C1: for every nullable primitive array with a nullable single-leaf
field (and a null count consistent with its bitmap), GenerateLevels yields
a def-level buffer of length equal to the array length, a null rep buffer,
num_levels equal to the array length, def[i] = 1 iff the array is valid at
i, all ones when null_count = 0 and all zeros when null_count = length. -/
theorem c1_nullable_primitive_levels (ty leafTy : String) (len off nc : Nat)
    (validity : Option (List Bool)) (vals : List Int)
    (hwf : flatWF len off validity nc = true) :
    ∃ ds : List Nat,
      genLevelsView (.flat ty len off validity nc vals) ⟨.prim leafTy, true⟩ =
        some (some ds, none, len) ∧
      ds.length = len ∧
      (∀ i, i < len → (ds.getD i 0 = 1 ↔ flatIsValid off validity nc i = true)) ∧
      (nc = 0 → ds = List.replicate len 1) ∧
      (nc = len → ds = List.replicate len 0) := by
  refine ⟨primDefLevels (.flat ty len off validity nc vals), rfl, ?_, ?_, ?_, ?_⟩
  · simp only [primDefLevels, ArrowArray.nullCountA, ArrowArray.lengthA,
      ArrowArray.bitmapA, ArrowArray.offsetA]
    split_ifs <;> simp
  · intro i hi
    simp only [primDefLevels, ArrowArray.nullCountA, ArrowArray.lengthA,
      ArrowArray.bitmapA, ArrowArray.offsetA]
    by_cases h0 : nc = 0
    · rw [if_pos h0, getD_replicate _ _ _ _ hi]
      have hv : flatIsValid off validity nc i = true := by
        cases validity with
        | none => simp [flatIsValid, h0]
        | some bm =>
            simp only [flatWF, beq_iff_eq] at hwf
            have hall := List.countP_eq_zero.mp (h0 ▸ hwf).symm
            have hb : bm.getD (off + i) false = true := by
              simpa using hall i (List.mem_range.mpr hi)
            exact hb
      simp [hv]
    · by_cases hl : nc = len
      · rw [if_neg h0, if_pos hl, getD_replicate _ _ _ _ hi]
        have hv : flatIsValid off validity nc i = false := by
          cases validity with
          | none => simp [flatIsValid, h0]
          | some bm =>
              simp only [flatWF, beq_iff_eq] at hwf
              have hlen2 : ((List.range len).countP
                  (fun j => !bm.getD (off + j) false)) = (List.range len).length := by
                rw [← hwf, hl, List.length_range]
              have hall := List.countP_eq_length.mp hlen2
              have hb : bm.getD (off + i) false = false := by
                simpa using hall i (List.mem_range.mpr hi)
              exact hb
        simp [hv]
      · rw [if_neg h0, if_neg hl]
        cases validity with
        | none =>
            exfalso
            simp only [flatWF, Bool.or_eq_true, beq_iff_eq] at hwf
            rcases hwf with h | h
            · exact h0 h
            · exact hl h
        | some bm =>
            rw [getD_map_range _ _ _ _ hi]
            show (if bm.getD (off + i) false then 1 else 0) = 1 ↔
                bm.getD (off + i) false = true
            cases hbit : bm.getD (off + i) false <;> simp
  · intro h0
    simp [primDefLevels, ArrowArray.nullCountA, ArrowArray.lengthA, h0]
  · intro hl
    by_cases h0 : nc = 0
    · have hlen0 : len = 0 := by omega
      subst hlen0
      simp [primDefLevels, ArrowArray.nullCountA, ArrowArray.lengthA, h0]
    · simp only [primDefLevels, ArrowArray.nullCountA, ArrowArray.lengthA,
        ArrowArray.bitmapA, ArrowArray.offsetA]
      rw [if_neg h0, if_pos hl]

/-- C1 witness: the array [1, null, 3] (bitmap 101, null count 1) with a
nullable int32 field. -/
theorem c1_nullable_primitive_levels_witness :
    flatWF 3 0 (some [true, false, true]) 1 = true ∧
    (∃ ds : List Nat,
      genLevelsView (.flat "int32" 3 0 (some [true, false, true]) 1 [1, 0, 3])
          ⟨.prim "int32", true⟩ =
        some (some ds, none, 3) ∧
      ds.length = 3 ∧
      (∀ i, i < 3 →
        (ds.getD i 0 = 1 ↔ flatIsValid 0 (some [true, false, true]) 1 i = true)) ∧
      (1 = 0 → ds = List.replicate 3 1) ∧
      (1 = 3 → ds = List.replicate 3 0)) :=
  ⟨by decide,
   c1_nullable_primitive_levels "int32" "int32" 3 0 1 (some [true, false, true])
     [1, 0, 3] (by decide)⟩

/-- beBytes always yields exactly k bytes. -/
theorem beBytes_length (k v : Nat) : (beBytes k v).length = k := by
  induction k generalizing v with
  | zero => rfl
  | succ k ih => simp [beBytes, ih]

/-- Reading one more low byte. -/
theorem beValue_append (xs : List Nat) (b : Nat) :
    beValue (xs ++ [b]) = beValue xs * 256 + b := by
  simp [beValue, List.foldl_append]

/-- Reading back the big-endian bytes of v gives v mod 256^k. -/
theorem beValue_beBytes (k v : Nat) : beValue (beBytes k v) = v % 256 ^ k := by
  induction k generalizing v with
  | zero => simp [beBytes, beValue, Nat.mod_one]
  | succ k ih =>
      rw [beBytes, beValue_append, ih]
      have h1 : (256 : Nat) ^ (k + 1) = 256 * 256 ^ k := by rw [pow_succ]; ring
      rw [h1, Nat.mod_mul]
      omega

/-- beBytes only depends on its argument mod 256^k. -/
theorem beBytes_mod (n v : Nat) : beBytes n (v % 256 ^ n) = beBytes n v := by
  induction n generalizing v with
  | zero => rfl
  | succ n ih =>
      rw [beBytes, beBytes]
      have hys : (256 : Nat) ^ (n + 1) = 256 * 256 ^ n := by rw [pow_succ]; ring
      congr 1
      · rw [hys, Nat.mod_mul_right_div_self]
        exact ih (v / 256)
      · rw [hys]
        congr 1
        exact Nat.mod_mod_of_dvd v ⟨256 ^ n, rfl⟩

/-- Splitting a big-endian representation into high and low parts. -/
theorem beBytes_add (m n v : Nat) :
    beBytes (m + n) v = beBytes m (v / 256 ^ n) ++ beBytes n v := by
  induction n generalizing v with
  | zero => simp [beBytes]
  | succ n ih =>
      have h1 : m + (n + 1) = (m + n) + 1 := by omega
      have h2 : v / 256 / 256 ^ n = v / 256 ^ (n + 1) := by
        rw [Nat.div_div_eq_div_mul, mul_comm, ← pow_succ]
      calc beBytes (m + (n + 1)) v
          = beBytes (m + n) (v / 256) ++ [v % 256] := by rw [h1, beBytes]
        _ = (beBytes m (v / 256 / 256 ^ n) ++ beBytes n (v / 256)) ++ [v % 256] := by
              rw [ih]
        _ = beBytes m (v / 256 ^ (n + 1)) ++ (beBytes n (v / 256) ++ [v % 256]) := by
              rw [h2, List.append_assoc]
        _ = beBytes m (v / 256 ^ (n + 1)) ++ beBytes (n + 1) v := rfl

/-- A k-byte big-endian encoding of d mod 2^(8k) decodes back to d whenever
d fits in k signed bytes. -/
theorem twosDecode (k : Nat) (d : Int) (bs : List Nat) (hk : 1 ≤ k)
    (hlo : -((2 : Int) ^ (8 * k - 1)) < d) (hhi : d < (2 : Int) ^ (8 * k - 1))
    (hbs : (beValue bs : Int) = d % ((2 : Int) ^ (8 * k))) :
    twosComplement k bs = d := by
  have hexp : 8 * k - 1 + 1 = 8 * k := by omega
  have hMH : (2 : Int) ^ (8 * k) = 2 * (2 : Int) ^ (8 * k - 1) := by
    conv_lhs => rw [← hexp]
    rw [pow_succ]
    ring
  have hHpos : (0 : Int) < (2 : Int) ^ (8 * k - 1) := by positivity
  have hcastH : ((2 ^ (8 * k - 1) : Nat) : Int) = (2 : Int) ^ (8 * k - 1) := by
    push_cast; ring
  have hch : d % ((2 : Int) ^ (8 * k)) = d ∨
      d % ((2 : Int) ^ (8 * k)) = d + (2 : Int) ^ (8 * k) := by
    by_cases hd : 0 ≤ d
    · left
      exact Int.emod_eq_of_lt hd (by linarith)
    · right
      have h1 : (d + (2 : Int) ^ (8 * k) * 1) % ((2 : Int) ^ (8 * k)) =
          d % ((2 : Int) ^ (8 * k)) :=
        Int.add_mul_emod_self_left d ((2 : Int) ^ (8 * k)) 1
      rw [mul_one] at h1
      rw [← h1]
      push_neg at hd
      exact Int.emod_eq_of_lt (by linarith) (by linarith)
  rw [twosComplement]
  rcases hch with h | h
  · have hB : (beValue bs : Int) = d := by rw [hbs, h]
    have hblt : beValue bs < 2 ^ (8 * k - 1) := by
      have hx : (beValue bs : Int) < ((2 ^ (8 * k - 1) : Nat) : Int) := by
        rw [hB, hcastH]; exact hhi
      exact_mod_cast hx
    rw [if_pos hblt, hB]
  · have hB : (beValue bs : Int) = d + (2 : Int) ^ (8 * k) := by rw [hbs, h]
    have hbge : ¬ (beValue bs < 2 ^ (8 * k - 1)) := by
      intro hcon
      have hx : (beValue bs : Int) < (2 : Int) ^ (8 * k - 1) := by
        rw [← hcastH]; exact_mod_cast hcon
      linarith
    rw [if_neg hbge, hB]
    ring

/-- The spec-modelled DecimalSize lies in [1, 16] and bounds 10^p for every
precision up to 38. -/
theorem decimalSizeBounds : ∀ p, p < 39 →
    1 ≤ DecimalSize p ∧ DecimalSize p ≤ 16 ∧
    10 ^ p ≤ 2 ^ (8 * DecimalSize p - 1) := by
  decide

/-- The 16-byte limb buffer is the big-endian encoding of the value mod
2^128. -/
theorem decimalLimbBytes_eq (d : Int) :
    decimalLimbBytes d = beBytes 16 ((d % ((2 : Int) ^ 128)).toNat) := by
  rw [decimalLimbBytes]
  generalize (Int.emod d ((2 : Int) ^ 128)).toNat = u
  have h1 : beBytes 16 u = beBytes 8 (u / 256 ^ 8) ++ beBytes 8 u := beBytes_add 8 8 u
  have h2 : (2 : Nat) ^ 64 = 256 ^ 8 := by norm_num
  rw [h1, h2]
  congr 1
  exact beBytes_mod 8 u

/-- The emitted decimal bytes are the DecimalSize-byte big-endian encoding
of the value. -/
theorem decimalEmitBytes_eq (p : Nat) (d : Int) (h16 : DecimalSize p ≤ 16) :
    decimalEmitBytes p d =
      beBytes (DecimalSize p) ((d % ((2 : Int) ^ 128)).toNat) := by
  rw [decimalEmitBytes, decimalLimbBytes_eq]
  generalize (d % ((2 : Int) ^ 128)).toNat = u
  have hsplit : beBytes 16 u =
      beBytes (16 - DecimalSize p) (u / 256 ^ DecimalSize p) ++
        beBytes (DecimalSize p) u := by
    have hx := beBytes_add (16 - DecimalSize p) (DecimalSize p) u
    rw [show (16 - DecimalSize p) + DecimalSize p = 16 by omega] at hx
    exact hx
  rw [hsplit]
  have hlen := beBytes_length (16 - DecimalSize p) (u / 256 ^ DecimalSize p)
  exact List.drop_left' hlen

/-- C6: for every decimal128 value d of precision p (1 <= p <= 38, |d| <
10^p), the emitted fixed-length byte sequence has length DecimalSize(p)
and, read as a big-endian two's-complement integer, equals d. -/
theorem c6_decimal_big_endian (p : Nat) (d : Int) (hp1 : 1 ≤ p) (hp38 : p ≤ 38)
    (hlo : -((10 : Int) ^ p) < d) (hhi : d < (10 : Int) ^ p) :
    (decimalEmitBytes p d).length = DecimalSize p ∧
    twosComplement (DecimalSize p) (decimalEmitBytes p d) = d := by
  obtain ⟨hk1, hk16, hpow⟩ := decimalSizeBounds p (by omega)
  have hpowI : ((10 : Int) ^ p) ≤ (2 : Int) ^ (8 * DecimalSize p - 1) := by
    exact_mod_cast hpow
  constructor
  · rw [decimalEmitBytes_eq p d hk16, beBytes_length]
  · rw [decimalEmitBytes_eq p d hk16]
    apply twosDecode (DecimalSize p) d _ hk1 (by linarith) (by linarith)
    rw [beValue_beBytes]
    have hu : (((d % ((2 : Int) ^ 128)).toNat : Nat) : Int) = d % ((2 : Int) ^ 128) :=
      Int.toNat_of_nonneg (Int.emod_nonneg d (by positivity))
    have hcast : (((d % ((2 : Int) ^ 128)).toNat % 256 ^ DecimalSize p : Nat) : Int) =
        (((d % ((2 : Int) ^ 128)).toNat : Nat) : Int) % ((256 : Int) ^ DecimalSize p) := by
      push_cast
      ring
    rw [hcast, hu]
    have h256 : ((256 : Int)) ^ DecimalSize p = (2 : Int) ^ (8 * DecimalSize p) := by
      rw [show (256 : Int) = 2 ^ 8 by norm_num, ← pow_mul]
    rw [h256]
    exact Int.emod_emod_of_dvd d (pow_dvd_pow 2 (by omega))

set_option maxRecDepth 16000 in
/-- C6 witness: 123456789 at precision 9 emits exactly the four bytes
0x07 0x5B 0xCD 0x15, which the theorem certifies decode back to the value. -/
theorem c6_decimal_big_endian_witness :
    decimalEmitBytes 9 123456789 = [0x07, 0x5B, 0xCD, 0x15] ∧
    DecimalSize 9 = 4 ∧
    ((decimalEmitBytes 9 123456789).length = DecimalSize 9 ∧
      twosComplement (DecimalSize 9) (decimalEmitBytes 9 123456789) = 123456789) :=
  ⟨by decide, by decide,
   c6_decimal_big_endian 9 123456789 (by decide) (by decide) (by decide) (by decide)⟩

end ParquetWriter
